import Mathlib

/-!
Verification of `gitlab_repo_group_sync.py` (repository `crrlcx/pyprojects`).

The script recursively clones or updates a GitLab group of repositories:
the `__main__` block partitions the project list into batches of `gl_batch`,
creates each project's target directory, dispatches `clone_repository` to a
`multiprocessing.Pool`, and waits on every result of the batch before the
next batch is formed.  `clone_repository` fetches when the path already holds
a git working copy and clones otherwise, bounding both calls with
`signal.alarm`.

This file is a shallow embedding of that code:

* filesystem state (`FS`) models the directories seen by `os.path.exists`
  and `os.makedirs`, together with a set of paths whose creation is denied
  (permission errors) and the set of paths holding git working copies;
* `create_directory` and `clone_repository` are translated line by line
  from the Python definitions; exceptions become `Except` values,
  `sys.exit(1)` becomes the `WorkerOutcome.exited 1` outcome, and a
  `SIGALRM` delivered while no handler is installed (the script installs
  none) becomes `WorkerOutcome.killed`;
* the `__main__` batch loop becomes `runSync`, which also records the
  scheduler's event trace (directory creation, `apply_async` submission,
  `AsyncResult.wait` return) so that ordering properties can be stated;
* a worker that dies (`sys.exit` escapes the pool worker's
  `except Exception`, and a `SIGALRM` death needs no escape) never
  delivers its `AsyncResult`, so the scheduler's `result.wait()` blocks
  forever; that nontermination is modelled by the distinguished abnormal
  result `PyErr.blocksForever`.
-/

namespace GLSync

/-- A filesystem path, as the list of its segments
(`os.path.join(base, project.path_with_namespace)` concatenates segments). -/
abbrev Path := List String

/-- One GitLab project as used by the script: its `path_with_namespace`
(segment list) and its `ssh_url_to_repo`. -/
structure Project where
  pathWithNamespace : List String
  sshUrlToRepo : String
deriving DecidableEq, Repr

/-- Abnormal results of a modelled Python computation: an uncaught
`OSError` propagating out of a call, or the computation never returning
at all (blocking forever).  The latter is how `AsyncResult.wait()`
behaves when its worker process died before delivering a result. -/
inductive PyErr where
  | osError (msg : String)
  | blocksForever
deriving DecidableEq, Repr

/-- Filesystem state: existing directories, paths whose creation is denied
by the OS (permission denied, disk full), and paths holding a valid git
working copy (those for which `git.Repo(path)` succeeds). -/
structure FS where
  dirs : List Path
  denied : List Path
  gitRepos : List Path
deriving DecidableEq, Repr

/-- The nonempty prefixes of a path, shortest first: the chain of
directories `os.makedirs` has to create. -/
def prefixesOf (p : Path) : List Path :=
  (List.range p.length).map fun k => p.take (k + 1)

/-- One `mkdir` step of `os.makedirs`: an existing directory is kept
(`exist_ok` behaviour for intermediate components), a denied path raises
`OSError`, otherwise the directory is appended. -/
def mkdirOne (fs : FS) (q : Path) : Except PyErr FS :=
  if q ∈ fs.dirs then .ok fs
  else if q ∈ fs.denied then .error (.osError "permission denied")
  else .ok { fs with dirs := fs.dirs ++ [q] }

/-- The recursion of `os.makedirs`: create the listed components in
order, stopping with the `OSError` of the first denied one. -/
def mkdirsAux : FS → List Path → Except PyErr FS
  | fs, [] => .ok fs
  | fs, q :: l => (mkdirOne fs q).bind fun fs₁ => mkdirsAux fs₁ l

/-- `os.makedirs(path)`: create every missing component, outermost
first. -/
def makedirs (fs : FS) (p : Path) : Except PyErr FS :=
  mkdirsAux fs (prefixesOf p)

/-- Embedding of `create_directory` (gitlab_repo_group_sync.py, lines
73-80): `if not os.path.exists(path): os.makedirs(path)`. -/
def create_directory (fs : FS) (path : Path) : Except PyErr FS :=
  if path ∈ fs.dirs then .ok fs
  else makedirs fs path

/-- Result of `git.Repo(path)`: a valid working copy, an existing
directory that is no repository (`InvalidGitRepositoryError`), or a
missing path (`NoSuchPathError`). -/
inductive RepoOpen where
  | valid
  | invalidRepo
  | noSuchPath
deriving DecidableEq, Repr

/-- What the underlying git operation would do if never interrupted:
succeed, or fail with a `GitCommandError` carrying a message. -/
inductive GitOp where
  | ok
  | err (msg : String)
deriving DecidableEq, Repr

/-- Environment a single `clone_repository` call runs against: the state
of the target path and the behaviour and duration of the fetch and clone
commands. -/
structure TaskEnv where
  repoOpen : RepoOpen
  fetchRes : GitOp
  fetchDur : Nat
  cloneRes : GitOp
  cloneDur : Nat
deriving DecidableEq, Repr

/-- How a worker invocation of `clone_repository` terminates.  `returned`
is a normal return, `exited c` is `sys.exit(c)`, `killed` is death by a
`SIGALRM` for which the script installed no handler (the default
disposition of `SIGALRM` terminates the process), and `raised` is an
uncaught Python exception. -/
inductive WorkerOutcome where
  | returned
  | exited (code : Nat)
  | killed
  | raised (msg : String)
deriving DecidableEq, Repr

/-- Observable actions of one `clone_repository` call: `signal.alarm(t)`
calls and the git fetch / git clone attempts, in program order. -/
inductive Act where
  | alarm (t : Nat)
  | fetchAttempt
  | cloneAttempt
deriving DecidableEq, Repr

/-- The pending `signal.alarm(timeout)` fires during an operation of
duration `dur` iff the timer was armed and the operation does not finish
first. -/
def alarmFires (timeout dur : Nat) : Bool :=
  decide (0 < timeout ∧ timeout ≤ dur)

/-- The clone half of `clone_repository` (lines 105-113):
`signal.alarm(timeout); Repo.clone_from(...); signal.alarm(0)` with
`except GitCommandError: print(...); sys.exit(1)`. -/
def cloneSection (env : TaskEnv) (timeout : Nat) : WorkerOutcome × List Act :=
  if alarmFires timeout env.cloneDur then
    (.killed, [.alarm timeout, .cloneAttempt])
  else
    match env.cloneRes with
    | .ok => (.returned, [.alarm timeout, .cloneAttempt, .alarm 0])
    | .err _ => (.exited 1, [.alarm timeout, .cloneAttempt])

/-- Embedding of `clone_repository` (lines 83-113).  `Repo(path)` is read
from `env.repoOpen`; on a valid repository the fetch is attempted under
`signal.alarm(timeout)`; `InvalidGitRepositoryError` is passed over and
falls to the clone; a `GitCommandError` from the fetch is printed and —
because the `return` sits in the `else:` clause of the `try` — control
also falls through to the clone section, without ever clearing the alarm
armed for the fetch. -/
def clone_repository (env : TaskEnv) (timeout : Nat) : WorkerOutcome × List Act :=
  match env.repoOpen with
  | .noSuchPath => (.raised "NoSuchPathError", [])
  | .invalidRepo => cloneSection env timeout
  | .valid =>
    if alarmFires timeout env.fetchDur then
      (.killed, [.alarm timeout, .fetchAttempt])
    else
      match env.fetchRes with
      | .ok => (.returned, [.alarm timeout, .fetchAttempt, .alarm 0])
      | .err _ =>
        let r := cloneSection env timeout
        (r.1, .alarm timeout :: .fetchAttempt :: r.2)

/-- Environment of a task whose target is not a git repository and whose
clone fails with a `GitCommandError` (for example an invalid clone
address), both operations finishing immediately. -/
def envCloneErr : TaskEnv :=
  { repoOpen := .invalidRepo
    fetchRes := .ok
    fetchDur := 0
    cloneRes := .err "fatal: could not read from remote repository"
    cloneDur := 0 }

/-- Environment of a task whose target is a valid working copy and whose
fetch fails with a `GitCommandError`; the subsequent clone into the
existing directory also fails. -/
def envFetchErr : TaskEnv :=
  { repoOpen := .valid
    fetchRes := .err "fatal: unable to access remote"
    fetchDur := 0
    cloneRes := .err "fatal: destination path already exists"
    cloneDur := 0 }

/-- Environment of a task whose clone would need 600 seconds, against the
default 180 second timeout. -/
def envSlowClone : TaskEnv :=
  { repoOpen := .invalidRepo
    fetchRes := .ok
    fetchDur := 0
    cloneRes := .ok
    cloneDur := 600 }

/-- Behaviour of the remote during one task, as `clone_repository` would
observe it; used to build a `TaskEnv` from the filesystem state. -/
structure GitOracle where
  fetchRes : GitOp
  fetchDur : Nat
  cloneRes : GitOp
  cloneDur : Nat
deriving DecidableEq, Repr

/-- What `git.Repo(path)` returns on the given filesystem state. -/
def repoOpenOf (fs : FS) (path : Path) : RepoOpen :=
  if path ∈ fs.gitRepos then .valid
  else if path ∈ fs.dirs then .invalidRepo
  else .noSuchPath

/-- The `TaskEnv` a task dispatched against `fs` at `path` runs in. -/
def envFor (fs : FS) (path : Path) (o : GitOracle) : TaskEnv :=
  { repoOpen := repoOpenOf fs path
    fetchRes := o.fetchRes
    fetchDur := o.fetchDur
    cloneRes := o.cloneRes
    cloneDur := o.cloneDur }

/-- `os.path.join(gl_local_base_path, project.path_with_namespace)`
(line 150). -/
def targetPath (base : Path) (p : Project) : Path :=
  base ++ p.pathWithNamespace

/-- The batch slicing of the `__main__` loop,
`projects[i : i + gl_batch]` for `i in range(0, len(projects), gl_batch)`
(lines 146-147), written with explicit fuel; `xs.length` steps suffice
whenever the batch size is positive. -/
def chunkAux (bsz : Nat) : Nat → List Project → List (List Project)
  | 0, _ => []
  | _ + 1, [] => []
  | fuel + 1, x :: xs => ((x :: xs).take bsz) :: chunkAux bsz fuel ((x :: xs).drop bsz)

/-- The list of batches the scheduler iterates over. -/
def chunkList (bsz : Nat) (xs : List Project) : List (List Project) :=
  chunkAux bsz xs.length xs

/-- Scheduler events, in the order the `__main__` loop performs them:
`createDir k n p` is the `create_directory` call for the `n`-th project
`p` of batch `k`, `submit k n p` the `pool.apply_async` call for it, and
`waitRet k n p` the return of `result.wait()` for it. -/
inductive Ev where
  | createDir (k n : Nat) (p : Project)
  | submit (k n : Nat) (p : Project)
  | waitRet (k n : Nat) (p : Project)
deriving DecidableEq, Repr

/-- Batch index of a scheduler event. -/
def Ev.batchIdx : Ev → Nat
  | .createDir k _ _ => k
  | .submit k _ _ => k
  | .waitRet k _ _ => k

/-- Projects submitted in a trace, in submission order. -/
def submitsOf (tr : List Ev) : List Project :=
  tr.filterMap fun e =>
    match e with
    | .submit _ _ p => some p
    | _ => none

/-- Whether the pool ever delivers the task's `AsyncResult`.  The worker
loop wraps the call in `except Exception`, so a normal return or an
ordinary raised exception is packaged and delivered; `sys.exit` raises
`SystemExit`, which is not an `Exception` and escapes the wrapper,
killing the worker process, and a `SIGALRM` death kills it outright — in
both cases the result is never put on the result queue. -/
def delivered : WorkerOutcome → Bool
  | .returned => true
  | .raised _ => true
  | .exited _ => false
  | .killed => false

/-- `AsyncResult.wait()` for one task: it blocks until the result is
delivered and then returns `None` — unlike `AsyncResult.get()` it never
re-raises the exception stored in the result.  But when the worker
process died (`sys.exit` or `SIGALRM` kill) the result is never
delivered, so the call blocks forever; that nontermination is the
distinguished abnormal result `PyErr.blocksForever`. -/
def result_wait : WorkerOutcome → Except PyErr Unit
  | .returned => .ok ()
  | .raised _ => .ok ()
  | .exited _ => .error .blocksForever
  | .killed => .error .blocksForever

/-- The `for result in results: result.wait()` loop (lines 155-156). -/
def waitAll : List WorkerOutcome → Except PyErr Unit
  | [] => .ok ()
  | o :: os => (result_wait o).bind fun _ => waitAll os

/-- First half of one batch iteration (lines 149-154): for each project
in order, `create_directory` (an `OSError` propagates and aborts the
run — there is no `try` around it) followed by `pool.apply_async`. -/
def phase1 (base : Path) (k : Nat) : FS → Nat → List Project → Except PyErr (FS × List Ev)
  | fs, _, [] => .ok (fs, [])
  | fs, n, p :: ps =>
    (create_directory fs (targetPath base p)).bind fun fs₁ =>
    (phase1 base k fs₁ (n + 1) ps).bind fun r =>
    .ok (r.1, Ev.createDir k n p :: Ev.submit k n p :: r.2)

/-- The `waitRet` events of one batch, in result-list order. -/
def waitEvts (k : Nat) : Nat → List Project → List Ev
  | _, [] => []
  | n, p :: ps => Ev.waitRet k n p :: waitEvts k (n + 1) ps

/-- One iteration of the batch loop: submit every member, then wait on
every result of this batch.  `res k n` is the outcome of the `n`-th task
of batch `k`, supplied by the workers. -/
def processBatch (base : Path) (res : Nat → Nat → WorkerOutcome) (fs : FS) (k : Nat)
    (b : List Project) : Except PyErr (FS × List Ev) :=
  (phase1 base k fs 0 b).bind fun r =>
  (waitAll ((List.range b.length).map fun n => res k n)).bind fun _ =>
  .ok (r.1, r.2 ++ waitEvts k 0 b)

/-- The batch loop over the remaining batches, starting at batch index
`k`. -/
def runBatches (base : Path) (res : Nat → Nat → WorkerOutcome) : FS → Nat → List (List Project) → Except PyErr (FS × List Ev)
  | fs, _, [] => .ok (fs, [])
  | fs, k, b :: bs =>
    (processBatch base res fs k b).bind fun r₁ =>
    (runBatches base res r₁.1 (k + 1) bs).bind fun r₂ =>
    .ok (r₂.1, r₁.2 ++ r₂.2)

/-- Embedding of the `__main__` batch loop (lines 145-156): partition the
project list into batches of `bsz` and run them in order, producing the
final filesystem state and the scheduler's event trace. -/
def runSync (base : Path) (fs : FS) (projects : List Project) (bsz : Nat)
    (res : Nat → Nat → WorkerOutcome) : Except PyErr (FS × List Ev) :=
  runBatches base res fs 0 (chunkList bsz projects)

/-- A filesystem is well formed when every ancestor of an existing
directory also exists. -/
def FS.Closed (fs : FS) : Prop :=
  ∀ p ∈ fs.dirs, ∀ q ∈ prefixesOf p, q ∈ fs.dirs

/-- The arguments of the `signal.alarm` calls a `clone_repository` run
performs, in order. -/
def alarmsOf (acts : List Act) : List Nat :=
  acts.filterMap fun a =>
    match a with
    | .alarm t => some t
    | _ => none

/-- Per-process interval timers: `signal.alarm` only ever reprograms the
timer of the calling process, so applying a task's alarm calls from
worker process `pid` updates that single entry of the timer table. -/
def applyAlarms (timers : Nat → Nat) (pid : Nat) (ts : List Nat) : Nat → Nat :=
  ts.foldl (fun s t => fun q => if q = pid then t else s q) timers

/-- A timed execution of the scheduler trace `tr`.  The scheduler thread
is sequential, so its events carry strictly increasing times; a task can
only start after its `apply_async`, and `result.wait()` can only return
once the task has finished (that is what waiting means).  `start k n` and
`finish k n` are the start and finish times of the `n`-th task of batch
`k`. -/
structure Execution (tr : List Ev) where
  schedTime : Fin tr.length → Nat
  start : Nat → Nat → Nat
  finish : Nat → Nat → Nat
  sched_mono : ∀ i j : Fin tr.length, i < j → schedTime i < schedTime j
  submit_le_start : ∀ (i : Fin tr.length) (k n : Nat) (p : Project),
    tr.get i = Ev.submit k n p → schedTime i ≤ start k n
  finish_le_wait : ∀ (i : Fin tr.length) (k n : Nat) (p : Project),
    tr.get i = Ev.waitRet k n p → finish k n ≤ schedTime i

/-- Concrete projects used to instantiate the theorems. -/
def pA : Project := ⟨["g", "a"], "git@gl:g/a.git"⟩

/-- Second concrete project. -/
def pB : Project := ⟨["g", "b"], "git@gl:g/b.git"⟩

/-- Third concrete project. -/
def pC : Project := ⟨["h", "c"], "git@gl:h/c.git"⟩

/-- An empty local base directory. -/
def fsEmpty : FS := ⟨[], [], []⟩

/-- A filesystem on which creating `["g"]` is denied. -/
def fsDenied : FS := ⟨[], [["g"]], []⟩

/-- Worker outcomes in which every task returns normally. -/
def resAll : Nat → Nat → WorkerOutcome := fun _ _ => .returned

/-- Worker outcomes in which every task raises an ordinary (delivered)
exception. -/
def resRaise : Nat → Nat → WorkerOutcome := fun _ _ => .raised "boom"

/-- Worker outcomes in which every task hits `sys.exit(1)` — the
script's own clone-failure path. -/
def resExit : Nat → Nat → WorkerOutcome := fun _ _ => .exited 1

/-- Trace of `runSync [] fsEmpty [pA, pB] 1 resAll`: two singleton
batches. -/
def trW : List Ev :=
  [Ev.createDir 0 0 pA, Ev.submit 0 0 pA, Ev.waitRet 0 0 pA,
   Ev.createDir 1 0 pB, Ev.submit 1 0 pB, Ev.waitRet 1 0 pB]

/-- Final filesystem of that two-batch run. -/
def fsW2 : FS := ⟨[["g"], ["g", "a"], ["g", "b"]], [], []⟩

/-- A timed execution of `trW`: the scheduler event at position `i`
happens at time `i`; batch 0's task runs in the interval 1-2, batch 1's
in the interval 4-5. -/
def execW : Execution trW where
  schedTime := fun i => i.val
  start := fun k _ => if k = 0 then 1 else 4
  finish := fun k _ => if k = 0 then 2 else 5
  sched_mono := fun _ _ h => h
  submit_le_start := by
    intro i
    fin_cases i <;> (intro k n p h; cases h) <;> decide
  finish_le_wait := by
    intro i
    fin_cases i <;> (intro k n p h; cases h) <;> decide

/-- Trace of `runSync [] fsEmpty [pA, pB, pC] 2 resAll`: one batch of
two, one of one. -/
def trX : List Ev :=
  [Ev.createDir 0 0 pA, Ev.submit 0 0 pA, Ev.createDir 0 1 pB, Ev.submit 0 1 pB,
   Ev.waitRet 0 0 pA, Ev.waitRet 0 1 pB,
   Ev.createDir 1 0 pC, Ev.submit 1 0 pC, Ev.waitRet 1 0 pC]

/-- Final filesystem of that three-project run. -/
def fsX : FS := ⟨[["g"], ["g", "a"], ["g", "b"], ["h"], ["h", "c"]], [], []⟩

/-- Filesystem after creating `["g", "a"]` on the empty base. -/
def fsY : FS := ⟨[["g"], ["g", "a"]], [], []⟩

/-- Trace of `runSync [] fsEmpty [pA] 1 resAll`. -/
def trY : List Ev := [Ev.createDir 0 0 pA, Ev.submit 0 0 pA, Ev.waitRet 0 0 pA]

/-- A git oracle whose fetch and clone succeed instantly. -/
def oW : GitOracle := ⟨.ok, 0, .ok, 0⟩

/-- An idle timer table: no process has an alarm pending. -/
def timersW : Nat → Nat := fun _ => 0

end GLSync

namespace GLSync

/-- C1: the claim says a protocol/command error during clone yields a
`Failed` outcome for that project only and never forces process exit.
The code instead reaches `sys.exit(1)`: at `envCloneErr` the worker
terminates the interpreter with exit code 1 after the clone attempt. -/
theorem clone_error_exits_process :
    clone_repository envCloneErr 180 =
      (WorkerOutcome.exited 1, [Act.alarm 180, Act.cloneAttempt]) := rfl

/-- C2: the claim says a protocol/command error during fetch records
`Failed(reason)` and no fallback clone is attempted.  In the code the
`return` lives in the `else:` clause of the fetch `try`, so after a
`GitCommandError` control falls through: at `envFetchErr` the action
trace contains a `cloneAttempt` after the `fetchAttempt`, and the worker
then exits the process when that clone fails. -/
theorem fetch_error_falls_through_to_clone :
    clone_repository envFetchErr 180 =
      (WorkerOutcome.exited 1,
        [Act.alarm 180, Act.fetchAttempt, Act.alarm 180, Act.cloneAttempt]) := rfl

/-- C4: the claim says a task exceeding its deadline has its operation
cancelled and a `TimedOut` outcome recorded.  The script arms
`signal.alarm` but installs no `SIGALRM` handler, so at `envSlowClone`
the signal's default disposition kills the worker process mid-clone; no
outcome value of any kind is produced (`WorkerOutcome.killed`, not a
recorded result). -/
theorem deadline_kills_worker_without_outcome :
    clone_repository envSlowClone 180 =
      (WorkerOutcome.killed, [Act.alarm 180, Act.cloneAttempt]) := rfl

/-- Inverting a successful `Except.bind`. -/
theorem except_bind_ok {α β : Type} {x : Except PyErr α} {f : α → Except PyErr β} {v : β}
    (h : x.bind f = .ok v) : ∃ w, x = .ok w ∧ f w = .ok v := by
  cases x with
  | error e => exact Except.noConfusion h
  | ok w => exact ⟨w, rfl, h⟩

/-- A successful `mkdirOne` leaves denial and repository data untouched,
keeps every existing directory, and makes the requested one exist. -/
theorem mkdirOne_ok {fs fs₁ : FS} {q : Path} (h : mkdirOne fs q = .ok fs₁) :
    q ∈ fs₁.dirs ∧ (∀ r ∈ fs.dirs, r ∈ fs₁.dirs)
      ∧ fs₁.denied = fs.denied ∧ fs₁.gitRepos = fs.gitRepos := by
  unfold mkdirOne at h
  by_cases h1 : q ∈ fs.dirs
  · rw [if_pos h1] at h
    cases h
    exact ⟨h1, fun r hr => hr, rfl, rfl⟩
  · rw [if_neg h1] at h
    by_cases h2 : q ∈ fs.denied
    · rw [if_pos h2] at h
      exact Except.noConfusion h
    · rw [if_neg h2] at h
      cases h
      refine ⟨?_, ?_, rfl, rfl⟩
      · simp
      · intro r hr
        simp [hr]

/-- A successful `mkdirsAux` makes every listed directory exist, keeps
the old ones, and leaves denial and repository data untouched. -/
theorem mkdirsAux_ok : ∀ (l : List Path) (fs fs₂ : FS), mkdirsAux fs l = .ok fs₂ →
    (∀ q ∈ l, q ∈ fs₂.dirs) ∧ (∀ r ∈ fs.dirs, r ∈ fs₂.dirs)
      ∧ fs₂.denied = fs.denied ∧ fs₂.gitRepos = fs.gitRepos := by
  intro l
  induction l with
  | nil =>
    intro fs fs₂ h
    cases h
    exact ⟨by simp, fun r hr => hr, rfl, rfl⟩
  | cons q l ih =>
    intro fs fs₂ h
    obtain ⟨fs₁, h1, h2⟩ := except_bind_ok h
    obtain ⟨hq, hmono, hden, hgit⟩ := mkdirOne_ok h1
    obtain ⟨hl, hmono₂, hden₂, hgit₂⟩ := ih fs₁ fs₂ h2
    refine ⟨?_, fun r hr => hmono₂ r (hmono r hr), hden₂.trans hden, hgit₂.trans hgit⟩
    intro x hx
    rcases List.mem_cons.mp hx with hx | hx
    · subst hx
      exact hmono₂ x hq
    · exact hl x hx

/-- A nonempty path is its own longest makedirs component. -/
theorem self_mem_prefixesOf {p : Path} (h : p ≠ []) : p ∈ prefixesOf p := by
  have hpos : 0 < p.length := List.length_pos.mpr h
  unfold prefixesOf
  refine List.mem_map.mpr ⟨p.length - 1, ?_, ?_⟩
  · rw [List.mem_range]
    omega
  · rw [Nat.sub_add_cancel hpos]
    exact List.take_length p

/-- A successful `create_directory` keeps existing directories and leaves
denial and repository data untouched. -/
theorem create_directory_mono {fs fs₂ : FS} {p : Path}
    (h : create_directory fs p = .ok fs₂) :
    (∀ r ∈ fs.dirs, r ∈ fs₂.dirs) ∧ fs₂.denied = fs.denied ∧ fs₂.gitRepos = fs.gitRepos := by
  unfold create_directory at h
  by_cases h1 : p ∈ fs.dirs
  · rw [if_pos h1] at h
    cases h
    exact ⟨fun r hr => hr, rfl, rfl⟩
  · rw [if_neg h1] at h
    obtain ⟨_, h2, h3, h4⟩ := mkdirsAux_ok (prefixesOf p) fs fs₂ h
    exact ⟨h2, h3, h4⟩

/-- After a successful `create_directory` on a nonempty path, the target
directory exists. -/
theorem create_directory_mem {fs fs₂ : FS} {p : Path} (hp : p ≠ [])
    (h : create_directory fs p = .ok fs₂) : p ∈ fs₂.dirs := by
  unfold create_directory at h
  by_cases h1 : p ∈ fs.dirs
  · rw [if_pos h1] at h
    cases h
    exact h1
  · rw [if_neg h1] at h
    exact (mkdirsAux_ok (prefixesOf p) fs fs₂ h).1 p (self_mem_prefixesOf hp)

/-- C8: `create_directory` is idempotent — on an existing directory it
succeeds and returns the filesystem unchanged, a second call after a
successful call changes nothing, and (on a well-formed filesystem) every
component of the requested path exists after success. -/
theorem ensure_directory_idempotent (fs fs₂ : FS) (p : Path) :
    (p ∈ fs.dirs → create_directory fs p = .ok fs)
    ∧ (create_directory fs p = .ok fs₂ → create_directory fs₂ p = .ok fs₂)
    ∧ (FS.Closed fs → create_directory fs p = .ok fs₂ → ∀ q ∈ prefixesOf p, q ∈ fs₂.dirs) := by
  refine ⟨fun h => by simp [create_directory, h], fun h => ?_, fun hc h q hq => ?_⟩
  · by_cases hp : p = []
    · subst hp
      unfold create_directory at h ⊢
      by_cases h1 : ([] : Path) ∈ fs.dirs
      · rw [if_pos h1] at h
        cases h
        rw [if_pos h1]
      · rw [if_neg h1] at h
        cases h
        rw [if_neg h1]
        rfl
    · have hmem := create_directory_mem hp h
      simp [create_directory, hmem]
  · unfold create_directory at h
    by_cases h1 : p ∈ fs.dirs
    · rw [if_pos h1] at h
      cases h
      exact hc p h1 q hq
    · rw [if_neg h1] at h
      exact (mkdirsAux_ok (prefixesOf p) fs fs₂ h).1 q hq

/-- Witness for C8 at a concrete input: creating `g/a` on an empty base
yields `fsY`; a second call is a silent no-op, and the intermediate
directory `g` exists afterwards. -/
theorem ensure_directory_idempotent_witness :
    create_directory fsY ["g", "a"] = .ok fsY ∧ ["g"] ∈ fsY.dirs :=
  ⟨(ensure_directory_idempotent fsEmpty fsY ["g", "a"]).2.1 (by rfl),
   (ensure_directory_idempotent fsEmpty fsY ["g", "a"]).2.2
     (by intro p hp q hq; simp [fsEmpty] at hp) (by rfl) ["g"] (by decide)⟩

/-- Alarm calls issued from one worker process never change the timer of
a different process. -/
theorem applyAlarms_other : ∀ (ts : List Nat) (timers : Nat → Nat) (pid pid₂ : Nat),
    pid ≠ pid₂ → applyAlarms timers pid ts pid₂ = timers pid₂ := by
  intro ts
  induction ts with
  | nil =>
    intro timers pid pid₂ _
    rfl
  | cons t ts ih =>
    intro timers pid pid₂ h
    have h2 := ih (fun q => if q = pid then t else timers q) pid pid₂ h
    rw [applyAlarms, List.foldl_cons]
    rw [applyAlarms] at h2
    rw [h2]
    exact if_neg fun hh => h hh.symm

/-- C5: deadlines of concurrently running tasks are independent.  Each
task runs `clone_repository` inside its own pool worker process, and
`signal.alarm` reprograms only the calling process's interval timer, so
replaying every alarm call of one task from process `pid` leaves the
timer of any distinct process `pid₂` unchanged — whatever the task's
environment and timeout were. -/
theorem alarm_deadlines_independent (timers : Nat → Nat) (pid pid₂ tmo : Nat)
    (env : TaskEnv) (h : pid ≠ pid₂) :
    applyAlarms timers pid (alarmsOf (clone_repository env tmo).2) pid₂ = timers pid₂ :=
  applyAlarms_other (alarmsOf (clone_repository env tmo).2) timers pid pid₂ h

/-- Witness for C5: a task in process 0 arming a 180 second alarm leaves
the idle timer of process 1 at 0. -/
theorem alarm_deadlines_independent_witness :
    (0 : Nat) ≠ 1
    ∧ applyAlarms timersW 0 (alarmsOf (clone_repository envSlowClone 180).2) 1 = timersW 1 :=
  ⟨by decide, alarm_deadlines_independent timersW 0 1 180 envSlowClone (by decide)⟩

/-- Waiting on a batch whose outcomes were all delivered returns
normally. -/
theorem waitAll_delivered : ∀ os : List WorkerOutcome,
    (∀ o ∈ os, delivered o = true) → waitAll os = .ok () := by
  intro os
  induction os with
  | nil =>
    intro _
    rfl
  | cons o os ih =>
    intro h
    have ho := h o (List.mem_cons_self o os)
    have hos := ih fun x hx => h x (List.mem_cons.mpr (Or.inr hx))
    cases o with
    | returned => exact hos
    | raised m => exact hos
    | exited c => exact absurd ho (by simp [delivered])
    | killed => exact absurd ho (by simp [delivered])

/-- Waiting on a batch containing an undelivered outcome — a worker that
died — blocks forever. -/
theorem waitAll_undelivered : ∀ os : List WorkerOutcome,
    (∃ o ∈ os, delivered o = false) → waitAll os = .error PyErr.blocksForever := by
  intro os
  induction os with
  | nil =>
    intro h
    obtain ⟨o, ho, _⟩ := h
    exact absurd ho (List.not_mem_nil o)
  | cons o os ih =>
    intro h
    cases o with
    | returned =>
      obtain ⟨x, hx, hxd⟩ := h
      rcases List.mem_cons.mp hx with rfl | hx2
      · exact absurd hxd (by simp [delivered])
      · exact ih ⟨x, hx2, hxd⟩
    | raised m =>
      obtain ⟨x, hx, hxd⟩ := h
      rcases List.mem_cons.mp hx with rfl | hx2
      · exact absurd hxd (by simp [delivered])
      · exact ih ⟨x, hx2, hxd⟩
    | exited c => rfl
    | killed => rfl

/-- One batch iteration does not depend on which delivered outcome each
worker had. -/
theorem processBatch_res_delivered (base : Path) (res res₂ : Nat → Nat → WorkerOutcome)
    (fs : FS) (k : Nat) (b : List Project)
    (h : ∀ n, delivered (res k n) = true) (h₂ : ∀ n, delivered (res₂ k n) = true) :
    processBatch base res fs k b = processBatch base res₂ fs k b := by
  unfold processBatch
  rw [waitAll_delivered ((List.range b.length).map fun n => res k n) ?_,
    waitAll_delivered ((List.range b.length).map fun n => res₂ k n) ?_]
  · intro o ho
    obtain ⟨n, _, rfl⟩ := List.mem_map.mp ho
    exact h₂ n
  · intro o ho
    obtain ⟨n, _, rfl⟩ := List.mem_map.mp ho
    exact h n

/-- The batch loop does not depend on which delivered outcome each
worker had. -/
theorem runBatches_res_delivered (base : Path) (res res₂ : Nat → Nat → WorkerOutcome)
    (h : ∀ k n, delivered (res k n) = true) (h₂ : ∀ k n, delivered (res₂ k n) = true) :
    ∀ (bs : List (List Project)) (fs : FS) (k : Nat),
      runBatches base res fs k bs = runBatches base res₂ fs k bs := by
  intro bs
  induction bs with
  | nil =>
    intro fs k
    rfl
  | cons b bs ih =>
    intro fs k
    show (processBatch base res fs k b).bind _ = (processBatch base res₂ fs k b).bind _
    rw [processBatch_res_delivered base res res₂ fs k b (h k) (h₂ k)]
    cases processBatch base res₂ fs k b with
    | error e => rfl
    | ok r =>
      show (runBatches base res r.1 (k + 1) bs).bind _ = (runBatches base res₂ r.1 (k + 1) bs).bind _
      rw [ih r.1 (k + 1)]

/-- Counterexample to C9: when every task hits the script's own
clone-failure path — `sys.exit(1)`, whose `SystemExit` escapes the pool
worker's `except Exception` and kills the worker before any result is
delivered — the two-batch run over `[pA, pB]` does not proceed to the
next batch regardless of the outcome: the scheduler blocks forever in
`result.wait()` on batch 0 and batch 1 is never reached. -/
theorem worker_death_blocks_scheduler :
    runSync [] fsEmpty [pA, pB] 1 resExit = .error PyErr.blocksForever := rfl

/-- C9 as the code actually behaves: the scheduler only ever calls
`result.wait()`, which either returns `None` or blocks forever and in
particular never re-raises a worker's exception into the scheduler loop;
a batch containing a dead worker's task blocks the wait loop forever;
and among runs whose workers all deliver an outcome (normal return or an
ordinary raised exception) the entire run is independent of what those
outcomes were, so a delivered exception never stops the scheduler. -/
theorem scheduler_waits_only :
    (∀ o : WorkerOutcome,
      result_wait o = Except.ok () ∨ result_wait o = Except.error PyErr.blocksForever)
    ∧ (∀ os : List WorkerOutcome, (∃ o ∈ os, delivered o = false) →
        waitAll os = Except.error PyErr.blocksForever)
    ∧ ∀ (base : Path) (fs : FS) (projects : List Project) (bsz : Nat)
        (res res₂ : Nat → Nat → WorkerOutcome),
        (∀ k n, delivered (res k n) = true) → (∀ k n, delivered (res₂ k n) = true) →
        runSync base fs projects bsz res = runSync base fs projects bsz res₂ :=
  ⟨fun o => by cases o with
    | returned => exact Or.inl rfl
    | raised m => exact Or.inl rfl
    | exited c => exact Or.inr rfl
    | killed => exact Or.inr rfl,
   waitAll_undelivered,
   fun base fs projects bsz res res₂ h h₂ =>
     runBatches_res_delivered base res res₂ h h₂ (chunkList bsz projects) fs 0⟩

/-- Witness for C9's amended statement: a batch holding a `sys.exit(1)`
worker blocks forever, while the run with all tasks returning equals the
run with all tasks raising an ordinary exception. -/
theorem scheduler_waits_only_witness :
    waitAll [WorkerOutcome.exited 1] = Except.error PyErr.blocksForever
    ∧ runSync [] fsEmpty [pA, pB] 1 resAll = runSync [] fsEmpty [pA, pB] 1 resRaise :=
  ⟨scheduler_waits_only.2.1 [WorkerOutcome.exited 1]
      ⟨WorkerOutcome.exited 1, List.mem_cons_self _ _, rfl⟩,
   scheduler_waits_only.2.2 [] fsEmpty [pA, pB] 1 resAll resRaise
     (fun _ _ => rfl) (fun _ _ => rfl)⟩

/-- For a positive batch size, concatenating the slices restores the
project list (fuel at least the list length suffices). -/
theorem chunkAux_flatten (bsz : Nat) (h : 0 < bsz) :
    ∀ (fuel : Nat) (xs : List Project), xs.length ≤ fuel →
      (chunkAux bsz fuel xs).flatten = xs := by
  intro fuel
  induction fuel with
  | zero =>
    intro xs hx
    rw [List.eq_nil_of_length_eq_zero (Nat.le_zero.mp hx)]
    rfl
  | succ fuel ih =>
    intro xs hx
    cases xs with
    | nil => rfl
    | cons x xs =>
      simp only [chunkAux, List.flatten_cons]
      rw [ih ((x :: xs).drop bsz) ?_]
      · exact List.take_append_drop bsz (x :: xs)
      · rw [List.length_drop]
        simp only [List.length_cons] at hx ⊢
        omega

/-- Every slice has at most `bsz` elements. -/
theorem chunkAux_mem_length (bsz : Nat) :
    ∀ (fuel : Nat) (xs b : List Project), b ∈ chunkAux bsz fuel xs → b.length ≤ bsz := by
  intro fuel
  induction fuel with
  | zero =>
    intro xs b hb
    simp [chunkAux] at hb
  | succ fuel ih =>
    intro xs b hb
    cases xs with
    | nil => simp [chunkAux] at hb
    | cons x xs =>
      simp only [chunkAux] at hb
      rcases List.mem_cons.mp hb with hb | hb
      · subst hb
        exact List.length_take_le bsz (x :: xs)
      · exact ih _ b hb

/-- Projects submitted by the submission half of one batch, in order. -/
theorem phase1_submits (base : Path) (k : Nat) :
    ∀ (ps : List Project) (fs : FS) (n : Nat) (fs₂ : FS) (evs : List Ev),
      phase1 base k fs n ps = .ok (fs₂, evs) → submitsOf evs = ps := by
  intro ps
  induction ps with
  | nil =>
    intro fs n fs₂ evs h
    cases h
    rfl
  | cons p ps ih =>
    intro fs n fs₂ evs h
    simp only [phase1] at h
    obtain ⟨fs₁, h1, h2⟩ := except_bind_ok h
    obtain ⟨r, h2b, h3⟩ := except_bind_ok h2
    cases h3
    show submitsOf (Ev.createDir k n p :: Ev.submit k n p :: r.2) = p :: ps
    simp only [submitsOf, List.filterMap_cons]
    simpa [submitsOf] using ih fs₁ (n + 1) r.1 r.2 h2b

/-- The waiting half of a batch submits nothing. -/
theorem waitEvts_submits (k : Nat) : ∀ (n : Nat) (ps : List Project),
    submitsOf (waitEvts k n ps) = [] := by
  intro n ps
  induction ps generalizing n with
  | nil => rfl
  | cons p ps ih =>
    simp only [waitEvts, submitsOf, List.filterMap_cons]
    simpa [submitsOf] using ih (n + 1)

/-- Submissions distribute over trace concatenation. -/
theorem submitsOf_append (l l₂ : List Ev) :
    submitsOf (l ++ l₂) = submitsOf l ++ submitsOf l₂ := by
  simp [submitsOf, List.filterMap_append]

/-- One successful batch iteration submits exactly its members, in
order. -/
theorem processBatch_submits (base : Path) (res : Nat → Nat → WorkerOutcome) (fs : FS)
    (k : Nat) (b : List Project) (fs₂ : FS) (evs : List Ev)
    (h : processBatch base res fs k b = .ok (fs₂, evs)) : submitsOf evs = b := by
  unfold processBatch at h
  obtain ⟨r, h1, h2⟩ := except_bind_ok h
  obtain ⟨u, h2b, h3⟩ := except_bind_ok h2
  cases h3
  rw [submitsOf_append, waitEvts_submits, List.append_nil]
  exact phase1_submits base k b fs 0 r.1 r.2 h1

/-- A successful batch loop submits exactly the concatenation of its
batches, in order. -/
theorem runBatches_submits (base : Path) (res : Nat → Nat → WorkerOutcome) :
    ∀ (bs : List (List Project)) (fs : FS) (k : Nat) (fs₂ : FS) (tr : List Ev),
      runBatches base res fs k bs = .ok (fs₂, tr) → submitsOf tr = bs.flatten := by
  intro bs
  induction bs with
  | nil =>
    intro fs k fs₂ tr h
    cases h
    rfl
  | cons b bs ih =>
    intro fs k fs₂ tr h
    simp only [runBatches] at h
    obtain ⟨r₁, h1, h2⟩ := except_bind_ok h
    obtain ⟨r₂, h2b, h3⟩ := except_bind_ok h2
    cases h3
    rw [submitsOf_append, List.flatten_cons,
      processBatch_submits base res fs k b r₁.1 r₁.2 h1,
      ih r₁.1 (k + 1) r₂.1 r₂.2 h2b]

/-- A list of batches whose member counts of `p` sum to zero contains
`p` nowhere. -/
theorem countP_of_sum_zero : ∀ (bs : List (List Project)) (p : Project),
    (bs.map (List.count p)).sum = 0 → bs.countP (fun b => decide (p ∈ b)) = 0 := by
  intro bs p
  induction bs with
  | nil =>
    intro _
    rfl
  | cons b bs ih =>
    intro h
    simp only [List.map_cons, List.sum_cons] at h
    have hb : List.count p b = 0 := by omega
    have hbs : (bs.map (List.count p)).sum = 0 := by omega
    rw [List.countP_cons]
    have hnb : p ∉ b := List.count_eq_zero.mp hb
    simp [hnb, ih hbs]

/-- A list of batches whose member counts of `p` sum to one contains `p`
in exactly one batch. -/
theorem countP_of_sum_one : ∀ (bs : List (List Project)) (p : Project),
    (bs.map (List.count p)).sum = 1 → bs.countP (fun b => decide (p ∈ b)) = 1 := by
  intro bs p
  induction bs with
  | nil =>
    intro h
    simp at h
  | cons b bs ih =>
    intro h
    simp only [List.map_cons, List.sum_cons] at h
    rw [List.countP_cons]
    by_cases hb : p ∈ b
    · have h1 : 0 < List.count p b := List.count_pos_iff.mpr hb
      have h2 : (bs.map (List.count p)).sum = 0 := by omega
      simp [hb, countP_of_sum_zero bs p h2]
    · have h1 : List.count p b = 0 := List.count_eq_zero.mpr hb
      have h2 : (bs.map (List.count p)).sum = 1 := by omega
      simp [hb, ih h2]

/-- C6: the scheduler partitions the catalog's project list into
consecutive batches of at most `bsz` items preserving order
(concatenating the batches restores the list), the run submits exactly
the project list in catalog order, and — the catalog listing having no
duplicates — every project lies in exactly one batch and is submitted
exactly once. -/
theorem batching_partitions (base : Path) (fs : FS) (projects : List Project) (bsz : Nat)
    (res : Nat → Nat → WorkerOutcome) (fs₂ : FS) (tr : List Ev)
    (h0 : 0 < bsz) (hrun : runSync base fs projects bsz res = .ok (fs₂, tr)) :
    (chunkList bsz projects).flatten = projects
    ∧ (∀ b ∈ chunkList bsz projects, b.length ≤ bsz)
    ∧ submitsOf tr = projects
    ∧ (projects.Nodup → ∀ p ∈ projects,
        (chunkList bsz projects).countP (fun b => decide (p ∈ b)) = 1
        ∧ List.count p (submitsOf tr) = 1) := by
  have hflat : (chunkList bsz projects).flatten = projects :=
    chunkAux_flatten bsz h0 projects.length projects le_rfl
  have hsub : submitsOf tr = projects := by
    rw [runBatches_submits base res (chunkList bsz projects) fs 0 fs₂ tr hrun, hflat]
  refine ⟨hflat, fun b hb => chunkAux_mem_length bsz projects.length projects b hb, hsub, ?_⟩
  intro hnd p hp
  have hc : List.count p projects = 1 := List.count_eq_one_of_mem hnd hp
  constructor
  · apply countP_of_sum_one
    rw [← List.count_flatten, hflat]
    exact hc
  · rw [hsub]
    exact hc

/-- Witness for C6: the three-project run with batch size 2 submits
exactly `[pA, pB, pC]` in order. -/
theorem batching_partitions_witness : submitsOf trX = [pA, pB, pC] :=
  (batching_partitions [] fsEmpty [pA, pB, pC] 2 resAll fsX trX (by decide) (by rfl)).2.2.1

/-- Every event of the submission half of batch `k` carries batch tag
`k`. -/
theorem phase1_batchIdx (base : Path) (k : Nat) :
    ∀ (ps : List Project) (fs : FS) (n : Nat) (fs₂ : FS) (evs : List Ev),
      phase1 base k fs n ps = .ok (fs₂, evs) → ∀ e ∈ evs, e.batchIdx = k := by
  intro ps
  induction ps with
  | nil =>
    intro fs n fs₂ evs h e he
    cases h
    exact absurd he (List.not_mem_nil e)
  | cons p ps ih =>
    intro fs n fs₂ evs h e he
    simp only [phase1] at h
    obtain ⟨fs₁, h1, h2⟩ := except_bind_ok h
    obtain ⟨r, h2b, h3⟩ := except_bind_ok h2
    cases h3
    rcases List.mem_cons.mp he with rfl | he2
    · rfl
    · rcases List.mem_cons.mp he2 with rfl | he3
      · rfl
      · exact ih fs₁ (n + 1) r.1 r.2 h2b e he3

/-- Every event of the waiting half of batch `k` carries batch tag
`k`. -/
theorem waitEvts_batchIdx (k : Nat) : ∀ (n : Nat) (ps : List Project),
    ∀ e ∈ waitEvts k n ps, e.batchIdx = k := by
  intro n ps
  induction ps generalizing n with
  | nil =>
    intro e he
    exact absurd he (List.not_mem_nil e)
  | cons p ps ih =>
    intro e he
    rcases List.mem_cons.mp he with rfl | he2
    · rfl
    · exact ih (n + 1) e he2

/-- Every event of one batch iteration carries that batch's tag. -/
theorem processBatch_batchIdx (base : Path) (res : Nat → Nat → WorkerOutcome) (fs : FS)
    (k : Nat) (b : List Project) (fs₂ : FS) (evs : List Ev)
    (h : processBatch base res fs k b = .ok (fs₂, evs)) : ∀ e ∈ evs, e.batchIdx = k := by
  unfold processBatch at h
  obtain ⟨r, h1, h2⟩ := except_bind_ok h
  obtain ⟨u, h2b, h3⟩ := except_bind_ok h2
  cases h3
  intro e he
  rcases List.mem_append.mp he with he | he
  · exact phase1_batchIdx base k b fs 0 r.1 r.2 h1 e he
  · exact waitEvts_batchIdx k 0 b e he

/-- A list of events with one common batch tag is weakly sorted by that
tag. -/
theorem pairwise_of_const {l : List Ev} {k : Nat} (h : ∀ e ∈ l, e.batchIdx = k) :
    l.Pairwise (fun a b => a.batchIdx ≤ b.batchIdx) := by
  induction l with
  | nil => exact List.Pairwise.nil
  | cons e l ih =>
    refine List.Pairwise.cons ?_ (ih fun x hx => h x (List.mem_cons.mpr (Or.inr hx)))
    intro b hb
    rw [h e (List.mem_cons_self e l), h b (List.mem_cons.mpr (Or.inr hb))]

/-- In a successful batch loop starting at batch `k`, every event has
tag at least `k` and the trace is weakly sorted by batch tag: the
scheduler finishes each batch before producing events of later ones. -/
theorem runBatches_batchIdx (base : Path) (res : Nat → Nat → WorkerOutcome) :
    ∀ (bs : List (List Project)) (fs : FS) (k : Nat) (fs₂ : FS) (tr : List Ev),
      runBatches base res fs k bs = .ok (fs₂, tr) →
      (∀ e ∈ tr, k ≤ e.batchIdx) ∧ tr.Pairwise (fun a b => a.batchIdx ≤ b.batchIdx) := by
  intro bs
  induction bs with
  | nil =>
    intro fs k fs₂ tr h
    cases h
    exact ⟨fun e he => absurd he (List.not_mem_nil e), List.Pairwise.nil⟩
  | cons b bs ih =>
    intro fs k fs₂ tr h
    simp only [runBatches] at h
    obtain ⟨r₁, h1, h2⟩ := except_bind_ok h
    obtain ⟨r₂, h2b, h3⟩ := except_bind_ok h2
    cases h3
    have hb := processBatch_batchIdx base res fs k b r₁.1 r₁.2 h1
    obtain ⟨hge, hpw⟩ := ih r₁.1 (k + 1) r₂.1 r₂.2 h2b
    constructor
    · intro e he
      rcases List.mem_append.mp he with he | he
      · exact le_of_eq (hb e he).symm
      · exact le_trans (Nat.le_succ k) (hge e he)
    · rw [List.pairwise_append]
      refine ⟨pairwise_of_const hb, hpw, ?_⟩
      intro a ha e he
      rw [hb a ha]
      exact le_trans (Nat.le_succ k) (hge e he)

/-- In a batch-sorted trace, an event of an earlier batch sits at an
earlier position. -/
theorem sorted_trace_lt {tr : List Ev}
    (hpw : tr.Pairwise (fun a b => a.batchIdx ≤ b.batchIdx))
    {i j : Fin tr.length} {k l : Nat}
    (hi : (tr.get i).batchIdx = k) (hj : (tr.get j).batchIdx = l) (hkl : k < l) : i < j := by
  rcases lt_trichotomy i j with h | h | h
  · exact h
  · exfalso
    rw [h, hj] at hi
    omega
  · exfalso
    have hle := List.pairwise_iff_get.mp hpw j i h
    rw [hi, hj] at hle
    omega

/-- C3: the batch barrier.  In any successful run and any timed
execution of its trace, a task of batch `k` that the scheduler waited on
finishes strictly before any task of a later batch `l` starts: the
scheduler blocks on every outcome of the current batch before it submits
the next one. -/
theorem batch_barrier (base : Path) (fs : FS) (projects : List Project) (bsz : Nat)
    (res : Nat → Nat → WorkerOutcome) (fs₂ : FS) (tr : List Ev)
    (hrun : runSync base fs projects bsz res = .ok (fs₂, tr)) (E : Execution tr)
    (i j : Fin tr.length) (k n l m : Nat) (p q : Project)
    (hi : tr.get i = Ev.waitRet k n p) (hj : tr.get j = Ev.submit l m q) (hkl : k < l) :
    E.finish k n < E.start l m := by
  have hpw := (runBatches_batchIdx base res (chunkList bsz projects) fs 0 fs₂ tr hrun).2
  have hij : i < j := sorted_trace_lt hpw (by rw [hi]; rfl) (by rw [hj]; rfl) hkl
  have h1 : E.finish k n ≤ E.schedTime i := E.finish_le_wait i k n p hi
  have h2 : E.schedTime i < E.schedTime j := E.sched_mono i j hij
  have h3 : E.schedTime j ≤ E.start l m := E.submit_le_start j l m q hj
  omega

/-- Witness for C3: in the two-batch run `trW` with the timed execution
`execW`, batch 0's task finishes (time 2) before batch 1's task starts
(time 4). -/
theorem batch_barrier_witness : execW.finish 0 0 < execW.start 1 0 :=
  batch_barrier [] fsEmpty [pA, pB] 1 resAll fsW2 trW (by rfl) execW
    ⟨2, by decide⟩ ⟨4, by decide⟩ 0 0 1 0 pA pB (by rfl) (by rfl) (by decide)

/-- Counterexample to C7: with creation of `g` denied, the run over
`[pA, pB]` (one batch of two) does not mark `pA` as `Failed` and
continue with `pB` — the uncaught `OSError` from `create_directory`
aborts the entire run before anything is submitted. -/
theorem mkdir_error_aborts_whole_run :
    runSync [] fsDenied [pA, pB] 10 resAll = .error (PyErr.osError "permission denied") := rfl

/-- C7 as the code actually behaves: `create_directory` runs in the
scheduler loop with no exception handler, so if creating the first
project's target directory fails, the whole run aborts with that error —
no project of the batch is submitted and no outcome is recorded. -/
theorem create_dir_failure_aborts_run (base : Path) (fs : FS) (p : Project)
    (ps : List Project) (bsz : Nat) (res : Nat → Nat → WorkerOutcome) (e : PyErr)
    (h0 : 0 < bsz) (hfail : create_directory fs (targetPath base p) = .error e) :
    runSync base fs (p :: ps) bsz res = .error e := by
  cases bsz with
  | zero => omega
  | succ m =>
    show runBatches base res fs 0 (chunkAux (m + 1) (p :: ps).length (p :: ps)) = .error e
    simp only [List.length_cons, chunkAux, List.take_succ_cons]
    show (processBatch base res fs 0 (p :: ps.take m)).bind _ = .error e
    unfold processBatch
    simp only [phase1, hfail]
    rfl

/-- Witness for C7's amended statement at a concrete input: the denied
base aborts the two-project batch. -/
theorem create_dir_failure_aborts_run_witness :
    runSync [] fsDenied [pA, pB] 2 resAll = .error (PyErr.osError "permission denied") :=
  create_dir_failure_aborts_run [] fsDenied pA [pB] 2 resAll
    (PyErr.osError "permission denied") (by decide) (by rfl)

/-- Every project of a successfully submitted batch half has its
`createDir` event immediately followed by its `submit` event. -/
theorem phase1_pair (base : Path) (k : Nat) :
    ∀ (ps : List Project) (fs : FS) (n : Nat) (fs₂ : FS) (evs : List Ev),
      phase1 base k fs n ps = .ok (fs₂, evs) → ∀ p ∈ ps,
        ∃ n₂ s t, evs = s ++ [Ev.createDir k n₂ p, Ev.submit k n₂ p] ++ t := by
  intro ps
  induction ps with
  | nil =>
    intro fs n fs₂ evs h p hp
    exact absurd hp (List.not_mem_nil p)
  | cons q ps ih =>
    intro fs n fs₂ evs h p hp
    simp only [phase1] at h
    obtain ⟨fs₁, h1, h2⟩ := except_bind_ok h
    obtain ⟨r, h2b, h3⟩ := except_bind_ok h2
    cases h3
    rcases List.mem_cons.mp hp with rfl | hp2
    · exact ⟨n, [], r.2, rfl⟩
    · obtain ⟨n₂, s, t, hst⟩ := ih fs₁ (n + 1) r.1 r.2 h2b p hp2
      refine ⟨n₂, Ev.createDir k n q :: Ev.submit k n q :: s, t, ?_⟩
      rw [hst]
      rfl

/-- Within one batch iteration, each member's `createDir` event is
immediately followed by its `submit` event. -/
theorem processBatch_pair (base : Path) (res : Nat → Nat → WorkerOutcome) (fs : FS)
    (k : Nat) (b : List Project) (fs₂ : FS) (evs : List Ev)
    (h : processBatch base res fs k b = .ok (fs₂, evs)) : ∀ p ∈ b,
      ∃ n₂ s t, evs = s ++ [Ev.createDir k n₂ p, Ev.submit k n₂ p] ++ t := by
  unfold processBatch at h
  obtain ⟨r, h1, h2⟩ := except_bind_ok h
  obtain ⟨u, h2b, h3⟩ := except_bind_ok h2
  cases h3
  intro p hp
  obtain ⟨n₂, s, t, hst⟩ := phase1_pair base k b fs 0 r.1 r.2 h1 p hp
  refine ⟨n₂, s, t ++ waitEvts k 0 b, ?_⟩
  rw [hst]
  simp [List.append_assoc]

/-- In a successful batch loop, each project of each batch has its
`createDir` event immediately followed by its `submit` event. -/
theorem runBatches_pair (base : Path) (res : Nat → Nat → WorkerOutcome) :
    ∀ (bs : List (List Project)) (fs : FS) (k : Nat) (fs₂ : FS) (tr : List Ev),
      runBatches base res fs k bs = .ok (fs₂, tr) → ∀ p ∈ bs.flatten,
        ∃ k₂ n₂ s t, tr = s ++ [Ev.createDir k₂ n₂ p, Ev.submit k₂ n₂ p] ++ t := by
  intro bs
  induction bs with
  | nil =>
    intro fs k fs₂ tr h p hp
    rw [List.flatten_nil] at hp
    exact absurd hp (List.not_mem_nil p)
  | cons b bs ih =>
    intro fs k fs₂ tr h p hp
    simp only [runBatches] at h
    obtain ⟨r₁, h1, h2⟩ := except_bind_ok h
    obtain ⟨r₂, h2b, h3⟩ := except_bind_ok h2
    cases h3
    rw [List.flatten_cons] at hp
    rcases List.mem_append.mp hp with hp | hp
    · obtain ⟨n₂, s, t, hst⟩ := processBatch_pair base res fs k b r₁.1 r₁.2 h1 p hp
      refine ⟨k, n₂, s, t ++ r₂.2, ?_⟩
      rw [hst]
      simp [List.append_assoc]
    · obtain ⟨k₂, n₂, s, t, hst⟩ := ih r₁.1 (k + 1) r₂.1 r₂.2 h2b p hp
      refine ⟨k₂, n₂, r₁.2 ++ s, t, ?_⟩
      rw [hst]
      simp [List.append_assoc]

/-- With the target path not holding a working copy, `clone_repository`
attempts the clone and never the fetch. -/
theorem clone_branch_actions (env : TaskEnv) (tmo : Nat)
    (h : env.repoOpen = RepoOpen.invalidRepo) :
    Act.cloneAttempt ∈ (clone_repository env tmo).2
    ∧ Act.fetchAttempt ∉ (clone_repository env tmo).2 := by
  unfold clone_repository
  rw [h]
  unfold cloneSection
  by_cases hf : alarmFires tmo env.cloneDur
  · simp [hf]
  · cases hcr : env.cloneRes <;> simp [hf, hcr]

/-- C10: the scheduler creates the target leaf directory immediately
before dispatching the sync task (the `createDir` event directly
precedes the `submit` event for every project of the run); and for a
first sync — target absent, hence no working copy — a successful
`create_directory` leaves an existing directory that is not a git
repository, so `git.Repo` fails with `InvalidGitRepositoryError` and the
dispatched task takes the clone branch, cloning into the
already-existing directory, whatever the git oracle and timeout are. -/
theorem first_sync_takes_clone_branch (base : Path) (fs : FS) (projects : List Project)
    (bsz : Nat) (res : Nat → Nat → WorkerOutcome) (fs₂ : FS) (tr : List Ev) (p : Project)
    (h0 : 0 < bsz) (hrun : runSync base fs projects bsz res = .ok (fs₂, tr))
    (hp : p ∈ projects) :
    (∃ k n s t, tr = s ++ [Ev.createDir k n p, Ev.submit k n p] ++ t)
    ∧ ∀ (fs₀ fs₁ : FS) (path : Path) (o : GitOracle) (tmo : Nat), path ≠ [] →
        path ∉ fs₀.gitRepos → create_directory fs₀ path = .ok fs₁ →
        path ∈ fs₁.dirs ∧ repoOpenOf fs₁ path = RepoOpen.invalidRepo
        ∧ Act.cloneAttempt ∈ (clone_repository (envFor fs₁ path o) tmo).2
        ∧ Act.fetchAttempt ∉ (clone_repository (envFor fs₁ path o) tmo).2 := by
  constructor
  · apply runBatches_pair base res (chunkList bsz projects) fs 0 fs₂ tr hrun
    unfold chunkList
    rw [chunkAux_flatten bsz h0 projects.length projects le_rfl]
    exact hp
  · intro fs₀ fs₁ path o tmo hne hgit hcd
    have hmem := create_directory_mem hne hcd
    have hrepos : fs₁.gitRepos = fs₀.gitRepos := (create_directory_mono hcd).2.2
    have hro : repoOpenOf fs₁ path = RepoOpen.invalidRepo := by
      unfold repoOpenOf
      rw [hrepos, if_neg hgit, if_pos hmem]
    have hbr := clone_branch_actions (envFor fs₁ path o) tmo (by simpa [envFor] using hro)
    exact ⟨hmem, hro, hbr.1, hbr.2⟩

/-- Witness for C10 at a concrete input: after the scheduler creates
`g/a` on the empty base, the directory exists, `git.Repo` sees no
repository there, and the task attempts the clone and not the fetch. -/
theorem first_sync_takes_clone_branch_witness :
    ["g", "a"] ∈ fsY.dirs ∧ repoOpenOf fsY ["g", "a"] = RepoOpen.invalidRepo
    ∧ Act.cloneAttempt ∈ (clone_repository (envFor fsY ["g", "a"] oW) 180).2
    ∧ Act.fetchAttempt ∉ (clone_repository (envFor fsY ["g", "a"] oW) 180).2 :=
  (first_sync_takes_clone_branch [] fsEmpty [pA] 1 resAll fsY trY pA
      (by decide) (by rfl) (by decide)).2
    fsEmpty fsY ["g", "a"] oW 180 (by decide) (by decide) (by rfl)

end GLSync
